import Mathlib

/-!
Verification of the Reno-style sender (`sender_reno.py`): segment codec,
transfer planning, metrics computation, and the congestion-control state
machine driven by ack/timeout events.

Python floats are modelled as exact rationals (ℚ); Python ints as ℤ/ℕ;
byte strings as `List Nat` with each byte < 256; the send-time dictionary
as an association list in insertion order.
-/

/-- Fixed datagram size (`PACKET_SIZE = 1024`). -/
def PACKET_SIZE : Nat := 1024

/-- Header size in bytes (`SEQ_ID_SIZE = 4`). -/
def SEQ_ID_SIZE : Nat := 4

/-- Maximum segment payload (`MSS = PACKET_SIZE - SEQ_ID_SIZE`). -/
def MSS : Nat := PACKET_SIZE - SEQ_ID_SIZE

/-- Big-endian byte encoding of `v` into `n` bytes (unsigned two's-complement image),
as produced by Python `int.to_bytes(v, n, byteorder="big")` on the reduced value. -/
def toBytesBE : Nat → Nat → List Nat
  | 0, _ => []
  | n + 1, v => toBytesBE n (v / 256) ++ [v % 256]

/-- Big-endian unsigned interpretation of a byte list, as in
Python `int.from_bytes(bs, byteorder="big")`. -/
def fromBytesBEUnsigned : List Nat → Nat
  | [] => 0
  | b :: rest => b * 256 ^ rest.length + fromBytesBEUnsigned rest

/-- Signed big-endian interpretation of a byte list, as in
Python `int.from_bytes(bs, byteorder="big", signed=True)` (empty input gives 0). -/
def fromBytesBESigned (bs : List Nat) : Int :=
  let u := fromBytesBEUnsigned bs
  if 2 * u < 2 ^ (8 * bs.length) then (u : Int) else (u : Int) - 2 ^ (8 * bs.length)

/-- `make_packet(seq_id, payload)`: 4-byte signed big-endian sequence id
followed by the payload bytes. -/
def make_packet (seq_id : Int) (payload : List Nat) : List Nat :=
  toBytesBE SEQ_ID_SIZE (seq_id % (2 ^ 32)).toNat ++ payload

/-- Whether a byte is a UTF-8 continuation byte (`0x80..0xBF`). -/
def isCont (b : Nat) : Bool := decide (0x80 ≤ b) && decide (b ≤ 0xBF)

/-- Allowed second byte of a 3-byte UTF-8 sequence with lead byte `b`
(excludes overlong encodings and surrogates, as CPython does). -/
def utf8Second3Ok (b c1 : Nat) : Bool :=
  if b = 0xE0 then decide (0xA0 ≤ c1) && decide (c1 ≤ 0xBF)
  else if b = 0xED then decide (0x80 ≤ c1) && decide (c1 ≤ 0x9F)
  else isCont c1

/-- Allowed second byte of a 4-byte UTF-8 sequence with lead byte `b`
(excludes overlong encodings and code points above U+10FFFF, as CPython does). -/
def utf8Second4Ok (b c1 : Nat) : Bool :=
  if b = 0xF0 then decide (0x90 ≤ c1) && decide (c1 ≤ 0xBF)
  else if b = 0xF4 then decide (0x80 ≤ c1) && decide (c1 ≤ 0x8F)
  else isCont c1

/-- One UTF-8 decoding step at lead byte `b` with following bytes `rest`:
`some (codepoint, k)` consumes `b` and `k` continuation bytes of `rest`;
`none` marks an invalid sequence at `b`. -/
def utf8Step (b : Nat) (rest : List Nat) : Option (Nat × Nat) :=
  if b < 0x80 then some (b, 0)
  else if decide (0xC2 ≤ b) && decide (b ≤ 0xDF) then
    match rest with
    | c1 :: _ => if isCont c1 then some ((b - 0xC0) * 64 + (c1 - 0x80), 1) else none
    | _ => none
  else if decide (0xE0 ≤ b) && decide (b ≤ 0xEF) then
    match rest with
    | c1 :: c2 :: _ =>
      if utf8Second3Ok b c1 && isCont c2 then
        some ((b - 0xE0) * 4096 + (c1 - 0x80) * 64 + (c2 - 0x80), 2)
      else none
    | _ => none
  else if decide (0xF0 ≤ b) && decide (b ≤ 0xF4) then
    match rest with
    | c1 :: c2 :: c3 :: _ =>
      if utf8Second4Ok b c1 && isCont c2 && isCont c3 then
        some ((b - 0xF0) * 262144 + (c1 - 0x80) * 4096 + (c2 - 0x80) * 64 + (c3 - 0x80), 3)
      else none
    | _ => none
  else none

/-- UTF-8 decoding with undecodable bytes dropped, as in Python
`bytes.decode(errors="ignore")` (the mode used by `parse_ack`). -/
def utf8DecodeIgnore : List Nat → List Nat
  | [] => []
  | b :: rest =>
    match utf8Step b rest with
    | some (cp, k) => cp :: utf8DecodeIgnore (rest.drop k)
    | none => utf8DecodeIgnore rest
termination_by l => l.length
decreasing_by
  · simp only [List.length_cons, List.length_drop]; omega
  · simp only [List.length_cons]; omega

/-- Whether a byte list is valid UTF-8 (strict decoding succeeds). -/
def utf8Valid : List Nat → Bool
  | [] => true
  | b :: rest =>
    match utf8Step b rest with
    | some (_, k) => utf8Valid (rest.drop k)
    | none => false
termination_by l => l.length
decreasing_by
  · simp only [List.length_cons, List.length_drop]; omega

/-- UTF-8 encoding of one code point. -/
def utf8EncodeChar (c : Nat) : List Nat :=
  if c < 0x80 then [c]
  else if c < 0x800 then [0xC0 + c / 64, 0x80 + c % 64]
  else if c < 0x10000 then [0xE0 + c / 4096, 0x80 + c / 64 % 64, 0x80 + c % 64]
  else [0xF0 + c / 262144, 0x80 + c / 4096 % 64, 0x80 + c / 64 % 64, 0x80 + c % 64]

/-- UTF-8 encoding of a code-point list. -/
def utf8Encode (l : List Nat) : List Nat := (l.map utf8EncodeChar).flatten

/-- Modelled from the spec: UTF-8 decoding that, as the spec's words for
`decode_ack` describe, replaces each undecodable byte (with U+FFFD) rather
than failing; used only to compare against the code's actual ignore-mode
decoding. -/
def utf8DecodeReplaceSpec : List Nat → List Nat
  | [] => []
  | b :: rest =>
    match utf8Step b rest with
    | some (cp, k) => cp :: utf8DecodeReplaceSpec (rest.drop k)
    | none => 0xFFFD :: utf8DecodeReplaceSpec rest
termination_by l => l.length
decreasing_by
  · simp only [List.length_cons, List.length_drop]; omega
  · simp only [List.length_cons]; omega

/-- `parse_ack(packet)`: first 4 bytes as signed big-endian offset, remainder
decoded as text with undecodable bytes ignored. -/
def parse_ack (packet : List Nat) : Int × List Nat :=
  (fromBytesBESigned (packet.take SEQ_ID_SIZE), utf8DecodeIgnore (packet.drop SEQ_ID_SIZE))

/-- Sum of absolute successive differences, the loop
`sum(abs(delays[i] - delays[i-1]) for i in range(1, len(delays)))`. -/
def jitterSum : List ℚ → ℚ
  | a :: b :: rest => |b - a| + jitterSum (b :: rest)
  | _ => 0

/-- `print_metrics`: returns `(throughput, avg_delay, avg_jitter, score)` as
computed by the source (floats modelled as exact rationals). -/
def print_metrics (total_bytes : ℚ) (duration : ℚ) (delays : List ℚ) : ℚ × ℚ × ℚ × ℚ :=
  let throughput := total_bytes / duration
  let avg_delay : ℚ := if delays.length ≠ 0 then delays.sum / (delays.length : ℚ) else 0
  let avg_jitter : ℚ :=
    if 1 < delays.length then jitterSum delays / ((delays.length - 1 : Nat) : ℚ) else 0
  let safe_jitter := if 0 < avg_jitter then avg_jitter else 1 / 1000000
  let safe_delay := if 0 < avg_delay then avg_delay else 1 / 1000000
  (throughput, avg_delay, avg_jitter, throughput / 2000 + 15 / safe_jitter + 35 / safe_delay)

/-- `load_payload_chunks` core: `[data[i : i + mss] for i in range(0, len(data), mss)]`. -/
def load_payload_chunks (mss : Nat) (data : List Nat) : List (List Nat) :=
  if h : 0 < mss ∧ data ≠ [] then
    data.take mss :: load_payload_chunks mss (data.drop mss)
  else []
termination_by data.length
decreasing_by
  have := List.length_pos.mpr h.2
  simp only [List.length_drop]; omega

/-- The transfer-building loop of `main`: assign cumulative offsets to the
chunks and append the zero-length EOF marker at the total length. -/
def buildTransfers (seq : Int) : List (List Nat) → List (Int × List Nat)
  | [] => [(seq, [])]
  | c :: cs => (seq, c) :: buildTransfers (seq + (c.length : Int)) cs

/-- The planning step: chunk the payload and assign offsets plus EOF marker. -/
def plan (data : List Nat) (mss : Nat) : List (Int × List Nat) :=
  buildTransfers 0 (load_payload_chunks mss data)

/-- Offset annotation without the terminal marker (proof helper mirroring
the offset-assignment loop). -/
def annotOffsets (seq : Int) : List (List Nat) → List (Int × List Nat)
  | [] => []
  | c :: cs => (seq, c) :: annotOffsets (seq + (c.length : Int)) cs

/-- Sum of chunk lengths. -/
def sumLens (cs : List (List Nat)) : Nat := (cs.map List.length).sum

/-- Python `int()` truncation toward zero of a float (modelled on ℚ). -/
def pyInt (q : ℚ) : Int := if 0 ≤ q then ⌊q⌋ else -⌊-q⌋

/-- Assignment `d[k] = v` on a dictionary modelled as an association list:
overwrite in place if present, append otherwise (dict insertion order). -/
def dictSet (l : List (Int × ℚ)) (k : Int) (v : ℚ) : List (Int × ℚ) :=
  match l with
  | [] => [(k, v)]
  | (k', v') :: rest => if k' = k then (k, v) :: rest else (k', v') :: dictSet rest k v

/-- The sender's mutable state in `main` of `sender_reno.py`. -/
structure SenderState where
  transfers : List (Int × List Nat)
  base : Nat
  next_seq_num : Nat
  packet_start_times : List (Int × ℚ)
  packet_delays : List ℚ
  cwnd : ℚ
  ssthresh : Int
  dup_acks : Nat
  prev_ack_id : Option Int
  in_fast_recovery : Bool
deriving DecidableEq

/-- `transfers[i]` with an out-of-range default (in-range in every reachable use). -/
def getSeg (s : SenderState) (i : Nat) : Int × List Nat :=
  s.transfers.getD i (0, [])

/-- The `while base < len(transfers) and transfers[base][0] < ack_id` loop body:
advance `base`, recording a delay sample when a send time exists. -/
def advanceBaseAux (transfers : List (Int × List Nat)) (times : List (Int × ℚ))
    (ack_id : Int) (now : ℚ) (b : Nat) (delays : List ℚ) : Nat × List ℚ :=
  if h : b < transfers.length ∧ (transfers.getD b (0, [])).1 < ack_id then
    let acked := (transfers.getD b (0, [])).1
    let delays' :=
      match List.lookup acked times with
      | some t => delays ++ [now - t]
      | none => delays
    advanceBaseAux transfers times ack_id now (b + 1) delays'
  else (b, delays)
termination_by transfers.length - b
decreasing_by omega

/-- The window-advance block guarded by `if ack_id > current_base_seq`. -/
def advanceBase (ack_id : Int) (now : ℚ) (s : SenderState) : SenderState :=
  if (getSeg s s.base).1 < ack_id then
    let bd := advanceBaseAux s.transfers s.packet_start_times ack_id now s.base s.packet_delays
    { s with base := bd.1, packet_delays := bd.2 }
  else s

/-- `ack_id > prev_ack_id` or `prev_ack_id is None`: a new cumulative ack. -/
def isNewAck : Option Int → Int → Bool
  | none, _ => true
  | some p, a => decide (p < a)

/-- `ack_id == prev_ack_id`: a duplicate ack. -/
def isDupAck : Option Int → Int → Bool
  | none, _ => false
  | some p, a => decide (a = p)

/-- Processing of one received non-fin ack in `main`: window advance, then the
Reno new-ack / duplicate-ack state machine. Returns the updated state and the
list of datagrams transmitted during this event. -/
def renoOnAck (ack_id : Int) (now : ℚ) (s : SenderState) : SenderState × List (Int × List Nat) :=
  let s1 := advanceBase ack_id now s
  if isNewAck s1.prev_ack_id ack_id then
    ({ s1 with
        prev_ack_id := some ack_id
        dup_acks := 0
        in_fast_recovery := false
        cwnd := max (if s1.in_fast_recovery then (s1.ssthresh : ℚ)
                     else if s1.cwnd < (s1.ssthresh : ℚ) then s1.cwnd + 1
                     else s1.cwnd + 1 / s1.cwnd) 1 }, [])
  else if isDupAck s1.prev_ack_id ack_id then
    if s1.in_fast_recovery then
      let s2 := { s1 with dup_acks := s1.dup_acks + 1, cwnd := s1.cwnd + 1 }
      if (s2.next_seq_num : Int) < (s2.base : Int) + pyInt s2.cwnd ∧
          s2.next_seq_num < s2.transfers.length then
        let seg := getSeg s2 s2.next_seq_num
        let times :=
          if (List.lookup seg.1 s2.packet_start_times).isNone then
            dictSet s2.packet_start_times seg.1 now
          else s2.packet_start_times
        ({ s2 with packet_start_times := times, next_seq_num := s2.next_seq_num + 1 }, [seg])
      else (s2, [])
    else if s1.dup_acks + 1 = 3 then
      let newSs : Int := max ⌊s1.cwnd / 2⌋ 1
      let seg := getSeg s1 s1.base
      ({ s1 with
          ssthresh := newSs
          cwnd := (newSs : ℚ) + 3
          dup_acks := 0
          in_fast_recovery := true
          packet_start_times := dictSet s1.packet_start_times seg.1 now }, [seg])
    else ({ s1 with dup_acks := s1.dup_acks + 1 }, [])
  else (s1, [])

/-- The `socket.timeout` handler in `main`: go-back-N reset, multiplicative
decrease, and immediate retransmission of the segment at `base`. -/
def renoOnTimeout (now : ℚ) (s : SenderState) : SenderState × List (Int × List Nat) :=
  let newSs : Int := max ⌊s.cwnd / 2⌋ 1
  let seg := getSeg s s.base
  ({ s with
      next_seq_num := s.base
      ssthresh := newSs
      cwnd := 1
      dup_acks := 0
      in_fast_recovery := false
      packet_start_times := dictSet s.packet_start_times seg.1 now }, [seg])

/-- The window-filling loop
`while next_seq_num < base + max(int(cwnd), 1) and next_seq_num < len(transfers)`. -/
def fillWindow (now : ℚ) (s : SenderState) : SenderState × List (Int × List Nat) :=
  if h : (s.next_seq_num : Int) < (s.base : Int) + max (pyInt s.cwnd) 1 ∧
      s.next_seq_num < s.transfers.length then
    let seg := getSeg s s.next_seq_num
    let times :=
      if (List.lookup seg.1 s.packet_start_times).isNone then
        dictSet s.packet_start_times seg.1 now
      else s.packet_start_times
    let r := fillWindow now { s with packet_start_times := times, next_seq_num := s.next_seq_num + 1 }
    (r.1, seg :: r.2)
  else (s, [])
termination_by s.transfers.length - s.next_seq_num
decreasing_by simp; omega

/-- Inbound events the control loop reacts to (a received non-fin ack, or a
receive timeout). -/
inductive SenderEvent
  | ack (id : Int) (now : ℚ)
  | timeout (now : ℚ)

/-- One control-loop reaction (state part). -/
def senderStep (s : SenderState) : SenderEvent → SenderState
  | SenderEvent.ack i t => (renoOnAck i t s).1
  | SenderEvent.timeout t => (renoOnTimeout t s).1

/-- Folding a sequence of events through the control loop. -/
def runEvents (s : SenderState) : List SenderEvent → SenderState
  | [] => s
  | e :: es => runEvents (senderStep s e) es

/-- The initial sender state of `main` (`cwnd = 1.0`, `ssthresh = 64`,
no duplicate acks, not in fast recovery). -/
def initState (transfers : List (Int × List Nat)) : SenderState :=
  { transfers := transfers, base := 0, next_seq_num := 0, packet_start_times := [],
    packet_delays := [], cwnd := 1, ssthresh := 64, dup_acks := 0,
    prev_ack_id := none, in_fast_recovery := false }

/-- `n` strictly increasing cumulative acks (ids `1, 2, ..., n`). -/
def ackEvents (n : Nat) : List SenderEvent :=
  (List.range n).map fun i => SenderEvent.ack ((i : Int) + 1) 0

/-! ### Dictionary and window-advance helper lemmas -/

theorem dictSet_lookup_self (l : List (Int × ℚ)) (k : Int) (v : ℚ) :
    List.lookup k (dictSet l k v) = some v := by
  induction l with
  | nil => simp [dictSet, List.lookup]
  | cons kv rest ih =>
    obtain ⟨k1, v1⟩ := kv
    rcases eq_or_ne k1 k with h | h
    · subst h; simp [dictSet, List.lookup]
    · have hb : (k == k1) = false := beq_eq_false_iff_ne.mpr (Ne.symm h)
      simp [dictSet, h, List.lookup, hb, ih]

theorem dictSet_lookup_ne (l : List (Int × ℚ)) (k k2 : Int) (v : ℚ) (h : k ≠ k2) :
    List.lookup k (dictSet l k2 v) = List.lookup k l := by
  induction l with
  | nil =>
    have hb : (k == k2) = false := beq_eq_false_iff_ne.mpr h
    simp [dictSet, List.lookup, hb]
  | cons kv rest ih =>
    obtain ⟨k1, v1⟩ := kv
    rcases eq_or_ne k1 k2 with h1 | h1
    · subst h1
      have hb : (k == k1) = false := beq_eq_false_iff_ne.mpr h
      simp [dictSet, List.lookup, hb]
    · rcases eq_or_ne k k1 with h2 | h2
      · subst h2; simp [dictSet, h1, List.lookup]
      · have hb : (k == k1) = false := beq_eq_false_iff_ne.mpr h2
        simp [dictSet, h1, List.lookup, hb, ih]

theorem advanceBase_cwnd (a : Int) (t : ℚ) (s : SenderState) :
    (advanceBase a t s).cwnd = s.cwnd := by
  unfold advanceBase; split <;> rfl

theorem advanceBase_ssthresh (a : Int) (t : ℚ) (s : SenderState) :
    (advanceBase a t s).ssthresh = s.ssthresh := by
  unfold advanceBase; split <;> rfl

theorem advanceBase_dup_acks (a : Int) (t : ℚ) (s : SenderState) :
    (advanceBase a t s).dup_acks = s.dup_acks := by
  unfold advanceBase; split <;> rfl

theorem advanceBase_prev_ack_id (a : Int) (t : ℚ) (s : SenderState) :
    (advanceBase a t s).prev_ack_id = s.prev_ack_id := by
  unfold advanceBase; split <;> rfl

theorem advanceBase_in_fast_recovery (a : Int) (t : ℚ) (s : SenderState) :
    (advanceBase a t s).in_fast_recovery = s.in_fast_recovery := by
  unfold advanceBase; split <;> rfl

theorem advanceBase_transfers (a : Int) (t : ℚ) (s : SenderState) :
    (advanceBase a t s).transfers = s.transfers := by
  unfold advanceBase; split <;> rfl

theorem advanceBase_next_seq_num (a : Int) (t : ℚ) (s : SenderState) :
    (advanceBase a t s).next_seq_num = s.next_seq_num := by
  unfold advanceBase; split <;> rfl

theorem advanceBase_packet_start_times (a : Int) (t : ℚ) (s : SenderState) :
    (advanceBase a t s).packet_start_times = s.packet_start_times := by
  unfold advanceBase; split <;> rfl

theorem advanceBase_of_not_lt (a : Int) (t : ℚ) (s : SenderState)
    (h : ¬ (getSeg s s.base).1 < a) : advanceBase a t s = s := by
  unfold advanceBase; rw [if_neg h]

/-! ### Codec lemmas -/

theorem toBytesBE_length (n v : Nat) : (toBytesBE n v).length = n := by
  induction n generalizing v with
  | zero => rfl
  | succ n ih => simp [toBytesBE, ih]

theorem fromBytesBEUnsigned_concat (l : List Nat) (b : Nat) :
    fromBytesBEUnsigned (l ++ [b]) = fromBytesBEUnsigned l * 256 + b := by
  induction l with
  | nil => simp [fromBytesBEUnsigned]
  | cons x l ih =>
    simp [fromBytesBEUnsigned, ih, List.length_append, pow_succ]
    ring

theorem fromBytes_toBytes (n v : Nat) :
    fromBytesBEUnsigned (toBytesBE n v) = v % 256 ^ n := by
  induction n generalizing v with
  | zero => simp [toBytesBE, fromBytesBEUnsigned]; omega
  | succ n ih =>
    rw [toBytesBE, fromBytesBEUnsigned_concat, ih]
    have h : 256 ^ (n + 1) = 256 * 256 ^ n := by ring
    rw [h, Nat.mod_mul]
    ring

theorem fromBytesBEUnsigned_lt (bs : List Nat) (hb : ∀ b ∈ bs, b < 256) :
    fromBytesBEUnsigned bs < 256 ^ bs.length := by
  induction bs with
  | nil => simp [fromBytesBEUnsigned]
  | cons x l ih =>
    have hx := hb x (by simp)
    have hl := ih (fun b h => hb b (by simp [h]))
    simp only [fromBytesBEUnsigned, List.length_cons, pow_succ]
    calc x * 256 ^ l.length + fromBytesBEUnsigned l
        < x * 256 ^ l.length + 256 ^ l.length := by omega
      _ = (x + 1) * 256 ^ l.length := by ring
      _ ≤ 256 * 256 ^ l.length := Nat.mul_le_mul_right _ (by omega)
      _ = 256 ^ l.length * 256 := by ring

theorem parse_make_offset (o : Int) (p : List Nat) (h1 : -(2 ^ 31) ≤ o) (h2 : o < 2 ^ 31) :
    (parse_ack (make_packet o p)).1 = o := by
  unfold parse_ack make_packet
  have hlen : (toBytesBE SEQ_ID_SIZE (o % 2 ^ 32).toNat).length = SEQ_ID_SIZE :=
    toBytesBE_length _ _
  rw [List.take_left' hlen]
  unfold fromBytesBESigned
  rw [fromBytes_toBytes, toBytesBE_length]
  simp only [SEQ_ID_SIZE]
  norm_num at h1 h2
  simp only [show (2 : Int) ^ 32 = 4294967296 from by norm_num,
    show (256 : Nat) ^ 4 = 4294967296 from by norm_num,
    show (2 : Nat) ^ (8 * 4) = 4294967296 from by norm_num,
    show (2 : Int) ^ (8 * 4) = 4294967296 from by norm_num]
  split <;> omega

theorem parse_make_text (o : Int) (p : List Nat) :
    (parse_ack (make_packet o p)).2 = utf8DecodeIgnore p := by
  unfold parse_ack make_packet
  have hlen : (toBytesBE SEQ_ID_SIZE (o % 2 ^ 32).toNat).length = SEQ_ID_SIZE :=
    toBytesBE_length _ _
  rw [List.drop_left' hlen]

/-! ### UTF-8 decoder lemmas -/

theorem utf8Second3Ok_bounds (b c1 : Nat) (h : utf8Second3Ok b c1 = true) :
    0x80 ≤ c1 ∧ c1 ≤ 0xBF ∧ (b = 0xE0 → 0xA0 ≤ c1) := by
  unfold utf8Second3Ok isCont at h
  split_ifs at h <;> simp only [Bool.and_eq_true, decide_eq_true_eq] at h <;> omega

theorem utf8Second4Ok_bounds (b c1 : Nat) (h : utf8Second4Ok b c1 = true) :
    0x80 ≤ c1 ∧ c1 ≤ 0xBF ∧ (b = 0xF0 → 0x90 ≤ c1) := by
  unfold utf8Second4Ok isCont at h
  split_ifs at h <;> simp only [Bool.and_eq_true, decide_eq_true_eq] at h <;> omega

theorem isCont_bounds (b : Nat) (h : isCont b = true) : 0x80 ≤ b ∧ b ≤ 0xBF := by
  unfold isCont at h
  simp only [Bool.and_eq_true, decide_eq_true_eq] at h
  exact h

theorem utf8Step_eq_some (b : Nat) (rest : List Nat) (cp k : Nat)
    (h : utf8Step b rest = some (cp, k)) :
    utf8EncodeChar cp = b :: rest.take k ∧ k ≤ rest.length := by
  unfold utf8Step at h
  split_ifs at h with h1 h2 h3 h4
  · -- 1-byte
    simp only [Option.some.injEq, Prod.mk.injEq] at h
    obtain ⟨rfl, rfl⟩ := h
    refine ⟨?_, by omega⟩
    simp [utf8EncodeChar, h1]
  · -- 2-byte
    simp only [Bool.and_eq_true, decide_eq_true_eq] at h2
    obtain ⟨hb1, hb2⟩ := h2
    cases rest with
    | nil => simp at h
    | cons c1 r1 =>
      have h' : (if isCont c1 then some ((b - 0xC0) * 64 + (c1 - 0x80), 1) else none)
          = some (cp, k) := h
      split_ifs at h' with hc
      obtain ⟨hc1, hc2⟩ := isCont_bounds c1 hc
      simp only [Option.some.injEq, Prod.mk.injEq] at h'
      obtain ⟨rfl, rfl⟩ := h'
      refine ⟨?_, by simp⟩
      unfold utf8EncodeChar
      rw [if_neg (by omega), if_pos (by omega)]
      simp only [List.take_succ_cons, List.take_zero, List.cons.injEq, and_true]
      omega
  · -- 3-byte
    simp only [Bool.and_eq_true, decide_eq_true_eq] at h3
    obtain ⟨hb1, hb2⟩ := h3
    match rest with
    | [] => simp at h
    | [c1] => simp at h
    | c1 :: c2 :: r2 =>
      have h' : (if utf8Second3Ok b c1 && isCont c2 then
          some ((b - 0xE0) * 4096 + (c1 - 0x80) * 64 + (c2 - 0x80), 2) else none)
          = some (cp, k) := h
      split_ifs at h' with hc
      simp only [Bool.and_eq_true] at hc
      obtain ⟨hok, hc2⟩ := hc
      obtain ⟨ha1, ha2, ha3⟩ := utf8Second3Ok_bounds b c1 hok
      obtain ⟨hd1, hd2⟩ := isCont_bounds c2 hc2
      simp only [Option.some.injEq, Prod.mk.injEq] at h'
      obtain ⟨rfl, rfl⟩ := h'
      refine ⟨?_, by simp⟩
      unfold utf8EncodeChar
      rw [if_neg (by omega), if_neg (by omega), if_pos (by omega)]
      simp only [List.take_succ_cons, List.take_zero, List.cons.injEq, and_true]
      omega
  · -- 4-byte
    simp only [Bool.and_eq_true, decide_eq_true_eq] at h4
    obtain ⟨hb1, hb2⟩ := h4
    match rest with
    | [] => simp at h
    | [c1] => simp at h
    | [c1, c2] => simp at h
    | c1 :: c2 :: c3 :: r3 =>
      have h' : (if utf8Second4Ok b c1 && isCont c2 && isCont c3 then
          some ((b - 0xF0) * 262144 + (c1 - 0x80) * 4096 + (c2 - 0x80) * 64 + (c3 - 0x80), 3)
          else none) = some (cp, k) := h
      split_ifs at h' with hc
      simp only [Bool.and_eq_true] at hc
      obtain ⟨⟨hok, hc2⟩, hc3⟩ := hc
      obtain ⟨ha1, ha2, ha3⟩ := utf8Second4Ok_bounds b c1 hok
      obtain ⟨hd1, hd2⟩ := isCont_bounds c2 hc2
      obtain ⟨he1, he2⟩ := isCont_bounds c3 hc3
      simp only [Option.some.injEq, Prod.mk.injEq] at h'
      obtain ⟨rfl, rfl⟩ := h'
      refine ⟨?_, by simp⟩
      unfold utf8EncodeChar
      rw [if_neg (by omega), if_neg (by omega), if_neg (by omega)]
      simp only [List.take_succ_cons, List.take_zero, List.cons.injEq, and_true]
      omega

theorem utf8Encode_cons (cp : Nat) (l : List Nat) :
    utf8Encode (cp :: l) = utf8EncodeChar cp ++ utf8Encode l := by
  simp [utf8Encode]

theorem utf8Encode_decodeIgnore_sublist (l : List Nat) :
    (utf8Encode (utf8DecodeIgnore l)).Sublist l := by
  induction l using utf8DecodeIgnore.induct with
  | case1 => simp [utf8DecodeIgnore, utf8Encode]
  | case2 b rest cp k hstep ih =>
    rw [utf8DecodeIgnore]
    rw [hstep, utf8Encode_cons]
    obtain ⟨henc, hk⟩ := utf8Step_eq_some b rest cp k hstep
    rw [henc]
    have : b :: rest = (b :: rest.take k) ++ rest.drop k := by
      simp [List.take_append_drop]
    rw [this]
    exact List.Sublist.append_left ih _
  | case3 b rest hstep ih =>
    rw [utf8DecodeIgnore, hstep]
    exact List.Sublist.cons b ih

theorem utf8Valid_encode_decodeIgnore (l : List Nat) (h : utf8Valid l = true) :
    utf8Encode (utf8DecodeIgnore l) = l := by
  induction l using utf8DecodeIgnore.induct with
  | case1 => simp [utf8DecodeIgnore, utf8Encode]
  | case2 b rest cp k hstep ih =>
    rw [utf8Valid, hstep] at h
    rw [utf8DecodeIgnore, hstep, utf8Encode_cons, ih h]
    obtain ⟨henc, hk⟩ := utf8Step_eq_some b rest cp k hstep
    rw [henc]
    simp [List.take_append_drop]
  | case3 b rest hstep ih =>
    rw [utf8Valid, hstep] at h
    exact absurd h (by simp)

/-! ### Planning lemmas -/

theorem load_payload_chunks_flatten (mss : Nat) (data : List Nat) (hm : 0 < mss) :
    (load_payload_chunks mss data).flatten = data := by
  have main : ∀ (n : Nat) (d : List Nat), d.length ≤ n →
      (load_payload_chunks mss d).flatten = d := by
    intro n
    induction n with
    | zero =>
      intro d hlen
      have hd : d = [] := List.eq_nil_of_length_eq_zero (by omega)
      rw [load_payload_chunks, dif_neg (by simp [hd])]
      simp [hd]
    | succ n ih =>
      intro d hlen
      rw [load_payload_chunks]
      split_ifs with h
      · have hdp : (d.drop mss).length ≤ n := by
          have := List.length_pos.mpr h.2
          simp only [List.length_drop]; omega
        simp [ih (d.drop mss) hdp, List.take_append_drop]
      · have hd : d = [] := by tauto
        simp [hd]
  exact main data.length data le_rfl

theorem load_payload_chunks_ne_nil (mss : Nat) (data : List Nat) (hm : 0 < mss) :
    ∀ c ∈ load_payload_chunks mss data, c ≠ [] := by
  have main : ∀ (n : Nat) (d : List Nat), d.length ≤ n →
      ∀ c ∈ load_payload_chunks mss d, c ≠ [] := by
    intro n
    induction n with
    | zero =>
      intro d hlen c hc
      have hd : d = [] := List.eq_nil_of_length_eq_zero (by omega)
      rw [load_payload_chunks, dif_neg (by simp [hd])] at hc
      simp at hc
    | succ n ih =>
      intro d hlen c hc
      rw [load_payload_chunks] at hc
      split_ifs at hc with h
      · rcases List.mem_cons.mp hc with rfl | hc
        · have hpos : 0 < (d.take mss).length := by
            have := List.length_pos.mpr h.2
            simp [List.length_take]; omega
          exact List.length_pos.mp hpos
        · have hdp : (d.drop mss).length ≤ n := by
            have := List.length_pos.mpr h.2
            simp only [List.length_drop]; omega
          exact ih (d.drop mss) hdp c hc
      · simp at hc
  exact main data.length data le_rfl

theorem load_payload_chunks_length (mss : Nat) (data : List Nat) (hm : 0 < mss) :
    (load_payload_chunks mss data).length = (data.length + mss - 1) / mss := by
  have main : ∀ (n : Nat) (d : List Nat), d.length ≤ n →
      (load_payload_chunks mss d).length = (d.length + mss - 1) / mss := by
    intro n
    induction n with
    | zero =>
      intro d hlen
      have hd : d = [] := List.eq_nil_of_length_eq_zero (by omega)
      rw [load_payload_chunks, dif_neg (by simp [hd])]
      simp [hd, Nat.div_eq_of_lt (by omega : mss - 1 < mss)]
    | succ n ih =>
      intro d hlen
      rw [load_payload_chunks]
      split_ifs with h
      · have hL : 0 < d.length := List.length_pos.mpr h.2
        have hdp : (d.drop mss).length ≤ n := by
          simp only [List.length_drop]; omega
        simp only [List.length_cons, ih (d.drop mss) hdp, List.length_drop]
        rcases le_or_lt d.length mss with hle | hlt
        · have r1 : (d.length - mss + mss - 1) / mss = 0 :=
            Nat.div_eq_of_lt (by omega)
          have r2 : (d.length + mss - 1) / mss = 1 :=
            Nat.div_eq_of_lt_le (by omega) (by omega)
          omega
        · have e : d.length + mss - 1 = (d.length - mss + mss - 1) + mss := by omega
          rw [e, Nat.add_div_right _ hm]
      · have hd : d = [] := by tauto
        simp [hd, Nat.div_eq_of_lt (by omega : mss - 1 < mss)]
  exact main data.length data le_rfl

theorem buildTransfers_eq (cs : List (List Nat)) : ∀ s : Int,
    buildTransfers s cs = annotOffsets s cs ++ [(s + (sumLens cs : Int), [])] := by
  induction cs with
  | nil => intro s; simp [buildTransfers, annotOffsets, sumLens]
  | cons c cs ih =>
    intro s
    simp only [buildTransfers, annotOffsets, ih, sumLens, List.map_cons, List.sum_cons,
      List.cons_append, List.cons.injEq, true_and]
    congr 2
    push_cast
    ring_nf

theorem annotOffsets_snd (cs : List (List Nat)) : ∀ s : Int,
    (annotOffsets s cs).map Prod.snd = cs := by
  induction cs with
  | nil => intro s; rfl
  | cons c cs ih => intro s; simp [annotOffsets, ih]

theorem annotOffsets_length (cs : List (List Nat)) : ∀ s : Int,
    (annotOffsets s cs).length = cs.length := by
  induction cs with
  | nil => intro s; rfl
  | cons c cs ih => intro s; simp [annotOffsets, ih]

theorem annotOffsets_mem_bounds (cs : List (List Nat)) (hpos : ∀ c ∈ cs, c ≠ []) :
    ∀ s : Int, ∀ x ∈ annotOffsets s cs, s ≤ x.1 ∧ x.1 < s + (sumLens cs : Int) := by
  induction cs with
  | nil => intro s x hx; simp [annotOffsets] at hx
  | cons c cs ih =>
    intro s x hx
    have hc : 0 < c.length := List.length_pos.mpr (hpos c (by simp))
    have hsum : sumLens (c :: cs) = c.length + sumLens cs := by
      simp [sumLens]
    rcases List.mem_cons.mp hx with rfl | hx
    · constructor
      · simp
      · simp only [hsum]
        push_cast
        omega
    · have := ih (fun d hd => hpos d (by simp [hd])) (s + (c.length : Int)) x hx
      constructor
      · omega
      · calc x.1 < s + (c.length : Int) + (sumLens cs : Int) := this.2
          _ = s + (sumLens (c :: cs) : Int) := by rw [hsum]; push_cast; ring

theorem annotOffsets_pairwise (cs : List (List Nat)) (hpos : ∀ c ∈ cs, c ≠ []) :
    ∀ s : Int, (annotOffsets s cs).Pairwise (fun x y => x.1 < y.1) := by
  induction cs with
  | nil => intro s; simp [annotOffsets]
  | cons c cs ih =>
    intro s
    have hc : 0 < c.length := List.length_pos.mpr (hpos c (by simp))
    refine List.Pairwise.cons ?_ (ih (fun d hd => hpos d (by simp [hd])) _)
    intro y hy
    have := (annotOffsets_mem_bounds cs (fun d hd => hpos d (by simp [hd]))
      (s + (c.length : Int)) y hy).1
    simp only []
    omega

/-! ### Signed-offset bound -/

theorem fromBytesBESigned_bounds (bs : List Nat) (hb : ∀ b ∈ bs, b < 256)
    (hlen : bs.length ≤ 4) :
    -(2 ^ 31) ≤ fromBytesBESigned bs ∧ fromBytesBESigned bs < 2 ^ 31 := by
  have hu := fromBytesBEUnsigned_lt bs hb
  have hp : (256 : Nat) ^ bs.length ≤ 4294967296 := by
    calc (256 : Nat) ^ bs.length ≤ 256 ^ 4 := Nat.pow_le_pow_right (by norm_num) hlen
      _ = 4294967296 := by norm_num
  have h2 : (2 : Nat) ^ (8 * bs.length) = 256 ^ bs.length := by
    rw [pow_mul]; norm_num
  have h2i : (2 : Int) ^ (8 * bs.length) = ((256 ^ bs.length : Nat) : Int) := by
    rw [pow_mul]; push_cast; norm_num
  simp only [fromBytesBESigned]
  rw [h2, h2i]
  constructor <;> split <;> omega

/-! ### Congestion-state machine lemmas -/

theorem markSent_preserves (times : List (Int × ℚ)) (sid : Int) (t : ℚ) (k : Int) (v : ℚ)
    (h : List.lookup k times = some v) :
    List.lookup k (if (List.lookup sid times).isNone then dictSet times sid t else times)
      = some v := by
  split_ifs with hn
  · have hk : k ≠ sid := by
      intro he
      rw [he, Option.isNone_iff_eq_none.mp hn] at h
      exact Option.noConfusion h
    rw [dictSet_lookup_ne _ _ _ _ hk]
    exact h
  · exact h

theorem renoOnAck_inv (a : Int) (t : ℚ) (s : SenderState)
    (h1 : 1 ≤ s.cwnd) (h2 : 1 ≤ s.ssthresh) :
    1 ≤ (renoOnAck a t s).1.cwnd ∧ 1 ≤ (renoOnAck a t s).1.ssthresh := by
  have e1 := advanceBase_cwnd a t s
  have e2 := advanceBase_ssthresh a t s
  simp only [renoOnAck]
  by_cases hnew : isNewAck (advanceBase a t s).prev_ack_id a = true
  · rw [if_pos hnew]
    exact ⟨le_max_right _ _, le_of_le_of_eq h2 e2.symm⟩
  · rw [if_neg hnew]
    by_cases hdup : isDupAck (advanceBase a t s).prev_ack_id a = true
    · rw [if_pos hdup]
      by_cases hfr : (advanceBase a t s).in_fast_recovery = true
      · rw [if_pos hfr]
        split_ifs with hwin hin
        all_goals
          exact ⟨by show (1 : ℚ) ≤ (advanceBase a t s).cwnd + 1; rw [e1]; linarith,
            by show (1 : Int) ≤ (advanceBase a t s).ssthresh; rw [e2]; exact h2⟩
      · rw [if_neg hfr]
        split_ifs with h3
        · constructor
          · show (1 : ℚ) ≤ ((max ⌊(advanceBase a t s).cwnd / 2⌋ 1 : Int) : ℚ) + 3
            have hm : (1 : ℚ) ≤ ((max ⌊(advanceBase a t s).cwnd / 2⌋ 1 : Int) : ℚ) := by
              exact_mod_cast (le_max_right ⌊(advanceBase a t s).cwnd / 2⌋ 1)
            linarith
          · show (1 : Int) ≤ max ⌊(advanceBase a t s).cwnd / 2⌋ 1
            exact le_max_right _ _
        · exact ⟨le_of_le_of_eq h1 e1.symm, le_of_le_of_eq h2 e2.symm⟩
    · rw [if_neg hdup]
      exact ⟨le_of_le_of_eq h1 e1.symm, le_of_le_of_eq h2 e2.symm⟩

theorem renoOnTimeout_inv (t : ℚ) (s : SenderState) :
    1 ≤ (renoOnTimeout t s).1.cwnd ∧ 1 ≤ (renoOnTimeout t s).1.ssthresh := by
  constructor
  · simp [renoOnTimeout]
  · simp only [renoOnTimeout]
    exact le_max_right _ _

theorem fillWindow_preserves_times (t : ℚ) (s : SenderState) (k : Int) (v : ℚ)
    (h : List.lookup k s.packet_start_times = some v) :
    List.lookup k (fillWindow t s).1.packet_start_times = some v := by
  have main : ∀ (n : Nat) (s : SenderState), s.transfers.length - s.next_seq_num ≤ n →
      ∀ (k : Int) (v : ℚ), List.lookup k s.packet_start_times = some v →
        List.lookup k (fillWindow t s).1.packet_start_times = some v := by
    intro n
    induction n with
    | zero =>
      intro s hlen k v h
      have hno : ¬((s.next_seq_num : Int) < (s.base : Int) + max (pyInt s.cwnd) 1 ∧
          s.next_seq_num < s.transfers.length) := by
        intro hcon
        omega
      rw [fillWindow, dif_neg hno]
      exact h
    | succ n ih =>
      intro s hlen k v h
      rw [fillWindow]
      split_ifs with hc
      · apply ih
        · simp only [List.length_cons]
          omega
        · exact markSent_preserves _ _ _ _ _ h
      · exact h
  exact main (s.transfers.length - s.next_seq_num) s le_rfl k v h

theorem runEvents_append (s : SenderState) (l1 l2 : List SenderEvent) :
    runEvents s (l1 ++ l2) = runEvents (runEvents s l1) l2 := by
  induction l1 generalizing s with
  | nil => rfl
  | cons e es ih => simp [runEvents, ih]

theorem ackEvents_succ (n : Nat) :
    ackEvents (n + 1) = ackEvents n ++ [SenderEvent.ack ((n : Int) + 1) 0] := by
  simp [ackEvents, List.range_succ]

theorem slowstart_state (n : Nat) (hn : n ≤ 63) :
    (runEvents (initState []) (ackEvents n)).cwnd = 1 + (n : ℚ) ∧
    (runEvents (initState []) (ackEvents n)).ssthresh = 64 ∧
    (runEvents (initState []) (ackEvents n)).in_fast_recovery = false ∧
    (runEvents (initState []) (ackEvents n)).transfers = [] ∧
    (runEvents (initState []) (ackEvents n)).prev_ack_id
      = (if n = 0 then none else some (n : Int)) := by
  induction n with
  | zero => simp [ackEvents, runEvents, initState]
  | succ n ih =>
    obtain ⟨hc, hs, hf, ht, hp⟩ := ih (by omega)
    rw [ackEvents_succ, runEvents_append]
    simp only [runEvents, senderStep]
    set st := runEvents (initState []) (ackEvents n) with hst
    have e1 := advanceBase_cwnd ((n : Int) + 1) 0 st
    have e2 := advanceBase_ssthresh ((n : Int) + 1) 0 st
    have e3 := advanceBase_in_fast_recovery ((n : Int) + 1) 0 st
    have e4 := advanceBase_transfers ((n : Int) + 1) 0 st
    have e5 := advanceBase_prev_ack_id ((n : Int) + 1) 0 st
    have hnew : isNewAck (advanceBase ((n : Int) + 1) 0 st).prev_ack_id ((n : Int) + 1)
        = true := by
      rw [e5, hp]
      by_cases hn0 : n = 0
      · simp [hn0, isNewAck]
      · simp only [hn0, if_false, isNewAck]
        simp
    simp only [renoOnAck, hnew, if_true]
    have hn62 : (n : ℚ) ≤ 62 := by exact_mod_cast (show (n : Int) ≤ 62 by omega)
    have hlt : (advanceBase ((n : Int) + 1) 0 st).cwnd
        < ((advanceBase ((n : Int) + 1) 0 st).ssthresh : ℚ) := by
      rw [e1, e2, hc, hs]
      push_cast
      linarith
    refine ⟨?_, ?_, ?_, ?_, ?_⟩
    · show max (if (advanceBase ((n : Int) + 1) 0 st).in_fast_recovery
          then ((advanceBase ((n : Int) + 1) 0 st).ssthresh : ℚ)
          else if (advanceBase ((n : Int) + 1) 0 st).cwnd
              < ((advanceBase ((n : Int) + 1) 0 st).ssthresh : ℚ)
            then (advanceBase ((n : Int) + 1) 0 st).cwnd + 1
            else (advanceBase ((n : Int) + 1) 0 st).cwnd
              + 1 / (advanceBase ((n : Int) + 1) 0 st).cwnd) 1 = 1 + ((n + 1 : Nat) : ℚ)
      rw [e3, hf, if_neg (by simp), if_pos hlt, e1, hc]
      rw [max_eq_left (by
        have hnn : (0 : ℚ) ≤ (n : ℚ) := Nat.cast_nonneg n
        linarith)]
      push_cast
      ring
    · show (advanceBase ((n : Int) + 1) 0 st).ssthresh = 64
      rw [e2, hs]
    · trivial
    · show (advanceBase ((n : Int) + 1) 0 st).transfers = []
      rw [e4, ht]
    · show some ((n : Int) + 1) = if n + 1 = 0 then none else some ((n + 1 : Nat) : Int)
      rw [if_neg (by omega)]
      push_cast
      ring_nf

theorem renoOnAck_dup_count (a : Int) (t : ℚ) (s : SenderState) (p : Int)
    (hp : s.prev_ack_id = some p) (ha : a = p) (hfr : s.in_fast_recovery = false)
    (h3 : ¬ s.dup_acks + 1 = 3) (hstale : ¬ (getSeg s s.base).1 < a) :
    renoOnAck a t s = ({ s with dup_acks := s.dup_acks + 1 }, []) := by
  subst ha
  simp only [renoOnAck]
  rw [advanceBase_of_not_lt a t s hstale]
  rw [hp]
  simp only [isNewAck, isDupAck, lt_self_iff_false, decide_False, Bool.false_eq_true,
    if_false, decide_True, if_true, hfr, decide_eq_true_eq]
  rw [if_neg h3]

theorem renoOnAck_triple_dup (a : Int) (t : ℚ) (s : SenderState) (p : Int)
    (hp : s.prev_ack_id = some p) (ha : a = p) (hfr : s.in_fast_recovery = false)
    (h3 : s.dup_acks + 1 = 3) (hstale : ¬ (getSeg s s.base).1 < a) :
    renoOnAck a t s = ({ s with
        ssthresh := max ⌊s.cwnd / 2⌋ 1,
        cwnd := ((max ⌊s.cwnd / 2⌋ 1 : Int) : ℚ) + 3,
        dup_acks := 0,
        in_fast_recovery := true,
        packet_start_times := dictSet s.packet_start_times (getSeg s s.base).1 t },
      [getSeg s s.base]) := by
  subst ha
  simp only [renoOnAck]
  rw [advanceBase_of_not_lt a t s hstale]
  rw [hp]
  simp only [isNewAck, isDupAck, lt_self_iff_false, decide_False, Bool.false_eq_true,
    if_false, decide_True, if_true, hfr, decide_eq_true_eq]
  rw [if_pos h3]

theorem renoOnAck_newAck_cwnd (a : Int) (t : ℚ) (s : SenderState)
    (hnew : isNewAck (advanceBase a t s).prev_ack_id a = true) :
    (renoOnAck a t s).1.cwnd
      = max (if (advanceBase a t s).in_fast_recovery then ((advanceBase a t s).ssthresh : ℚ)
             else if (advanceBase a t s).cwnd < ((advanceBase a t s).ssthresh : ℚ)
               then (advanceBase a t s).cwnd + 1
               else (advanceBase a t s).cwnd + 1 / (advanceBase a t s).cwnd) 1 := by
  simp only [renoOnAck]
  rw [if_pos hnew]

/-! ### Claim theorems -/

/-- C1: Triple-duplicate-ack fast retransmit. From `cwnd = 10`, `ssthresh = 64`,
`dup_acks = 0`, not in fast recovery, three consecutive duplicate acks (each equal to
the last ack offset, which is at most the base segment's offset) leave
`ssthresh = 5`, `cwnd = 8`, `dup_acks = 0`, `in_fast_recovery = true`, and exactly one
retransmission — the segment at `base` — is emitted across the three events. -/
theorem tripleDupAck_fast_retransmit
    (tr : List (Int × List Nat)) (b next : Nat) (times : List (Int × ℚ))
    (delays : List ℚ) (a : Int) (t1 t2 t3 : ℚ)
    (hb : b < tr.length) (hstale : ¬ (tr.getD b (0, [])).1 < a) :
    let s0 : SenderState := ⟨tr, b, next, times, delays, 10, 64, 0, some a, false⟩
    let r1 := renoOnAck a t1 s0
    let r2 := renoOnAck a t2 r1.1
    let r3 := renoOnAck a t3 r2.1
    r3.1.ssthresh = 5 ∧ r3.1.cwnd = 8 ∧ r3.1.dup_acks = 0 ∧
      r3.1.in_fast_recovery = true ∧ r1.2 ++ r2.2 ++ r3.2 = [tr.getD b (0, [])] := by
  intro s0 r1 r2 r3
  have h1 : r1 = ({ s0 with dup_acks := 0 + 1 }, []) :=
    renoOnAck_dup_count a t1 s0 a rfl rfl rfl (by norm_num) hstale
  have h2 : r2 = ({ s0 with dup_acks := 0 + 1 + 1 }, []) := by
    show renoOnAck a t2 r1.1 = _
    rw [h1]
    exact renoOnAck_dup_count a t2 ({ s0 with dup_acks := 0 + 1 }) a rfl rfl rfl
      (by simp) hstale
  have h3 : r3 = ({ s0 with
      ssthresh := max ⌊(10 : ℚ) / 2⌋ 1,
      cwnd := ((max ⌊(10 : ℚ) / 2⌋ 1 : Int) : ℚ) + 3,
      dup_acks := 0,
      in_fast_recovery := true,
      packet_start_times := dictSet times (tr.getD b (0, [])).1 t3 },
      [tr.getD b (0, [])]) := by
    show renoOnAck a t3 r2.1 = _
    rw [h2]
    exact renoOnAck_triple_dup a t3 ({ s0 with dup_acks := 0 + 1 + 1 }) a rfl rfl rfl
      (by simp) hstale
  refine ⟨?_, ?_, ?_, ?_, ?_⟩
  · rw [h3]
    show max ⌊(10 : ℚ) / 2⌋ 1 = 5
    norm_num
  · rw [h3]
    show ((max ⌊(10 : ℚ) / 2⌋ 1 : Int) : ℚ) + 3 = 8
    norm_num
  · rw [h3]
  · rw [h3]
  · rw [h1, h2, h3]
    simp

/-- C1 witness: the fast-retransmit scenario evaluated at a concrete two-segment
transfer with the duplicate ack at offset 0. -/
theorem tripleDupAck_fast_retransmit_witness :
    (0 : Nat) < ([((0 : Int), [9]), (1, [])] : List (Int × List Nat)).length ∧
    ¬ (([((0 : Int), [9]), (1, [])] : List (Int × List Nat)).getD 0 (0, [])).1 < (0 : Int) ∧
    (let s0 : SenderState := ⟨[((0 : Int), [9]), (1, [])], 0, 1, [], [], 10, 64, 0,
        some 0, false⟩
     let r1 := renoOnAck 0 0 s0
     let r2 := renoOnAck 0 0 r1.1
     let r3 := renoOnAck 0 0 r2.1
     r3.1.ssthresh = 5 ∧ r3.1.cwnd = 8 ∧ r3.1.dup_acks = 0 ∧
       r3.1.in_fast_recovery = true ∧ r1.2 ++ r2.2 ++ r3.2
         = [([((0 : Int), [9]), (1, [])] : List (Int × List Nat)).getD 0 (0, [])]) :=
  ⟨by decide, by decide,
   tripleDupAck_fast_retransmit [((0 : Int), [9]), (1, [])] 0 1 [] [] 0 0 0 0
     (by decide) (by decide)⟩

/-- C2: Timeout transition. A receive timeout sets `ssthresh = max(floor(cwnd/2), 1)`,
`cwnd = 1.0`, `dup_acks = 0`, leaves fast recovery, resets `next_seq_num` to `base`
(go-back-N), and immediately retransmits the segment at `base`; in particular with
`cwnd = 20` it yields `ssthresh = 10`. -/
theorem timeout_transition (s : SenderState) (now : ℚ) :
    ((renoOnTimeout now s).1.ssthresh = max ⌊s.cwnd / 2⌋ 1 ∧
     (renoOnTimeout now s).1.cwnd = 1 ∧
     (renoOnTimeout now s).1.dup_acks = 0 ∧
     (renoOnTimeout now s).1.in_fast_recovery = false ∧
     (renoOnTimeout now s).1.next_seq_num = s.base ∧
     (renoOnTimeout now s).2 = [s.transfers.getD s.base (0, [])]) ∧
    (s.cwnd = 20 → (renoOnTimeout now s).1.ssthresh = 10) := by
  constructor
  · exact ⟨rfl, rfl, rfl, rfl, rfl, rfl⟩
  · intro h20
    show max ⌊s.cwnd / 2⌋ 1 = 10
    rw [h20]
    norm_num

/-- C2 witness: the timeout transition evaluated at a concrete state with `cwnd = 20`. -/
theorem timeout_transition_witness :
    (⟨[((0 : Int), [1])], 0, 1, [], [], 20, 64, 0, none, false⟩ : SenderState).cwnd = 20 ∧
    (renoOnTimeout 3 ⟨[((0 : Int), [1])], 0, 1, [], [], 20, 64, 0, none, false⟩).1.ssthresh
      = 10 :=
  ⟨rfl, (timeout_transition ⟨[((0 : Int), [1])], 0, 1, [], [], 20, 64, 0, none, false⟩ 3).2
    rfl⟩

/-- C3: Congestion-state invariant. Starting from the initial state
(`cwnd = 1.0`, `ssthresh = 64`), after any sequence of ack and timeout events,
`cwnd ≥ 1.0` and `ssthresh ≥ 1` hold. -/
theorem congestion_state_invariant (transfers : List (Int × List Nat))
    (evs : List SenderEvent) :
    1 ≤ (runEvents (initState transfers) evs).cwnd ∧
    1 ≤ (runEvents (initState transfers) evs).ssthresh := by
  have main : ∀ (evs : List SenderEvent) (s : SenderState),
      1 ≤ s.cwnd → 1 ≤ s.ssthresh →
      1 ≤ (runEvents s evs).cwnd ∧ 1 ≤ (runEvents s evs).ssthresh := by
    intro evs
    induction evs with
    | nil => intro s h1 h2; exact ⟨h1, h2⟩
    | cons e es ih =>
      intro s h1 h2
      simp only [runEvents]
      cases e with
      | ack i t =>
        have h := renoOnAck_inv i t s h1 h2
        exact ih _ h.1 h.2
      | timeout t =>
        have h := renoOnTimeout_inv t s
        exact ih _ h.1 h.2
  exact main evs (initState transfers) (by norm_num [initState]) (by norm_num [initState])

/-- C4: Slow-start growth is linear per ack. From `cwnd = 1`, `ssthresh = 64`,
`N ≤ 63` consecutive new cumulative acks with no loss leave `cwnd = 1 + N`
(so `cwnd < ssthresh` holds before each ack); and once `cwnd ≥ ssthresh`, a further
new ack (not in fast recovery) adds `1/cwnd` instead. -/
theorem slow_start_linear_growth :
    (∀ n : Nat, n ≤ 63 → (runEvents (initState []) (ackEvents n)).cwnd = 1 + (n : ℚ)) ∧
    (∀ (s : SenderState) (a p : Int) (now : ℚ),
      s.prev_ack_id = some p → p < a → s.in_fast_recovery = false →
      (s.ssthresh : ℚ) ≤ s.cwnd → 1 ≤ s.cwnd →
      (renoOnAck a now s).1.cwnd = s.cwnd + 1 / s.cwnd) := by
  constructor
  · intro n hn
    exact (slowstart_state n hn).1
  · intro s a p now hp hlt hfr hss h1
    have e1 := advanceBase_cwnd a now s
    have e2 := advanceBase_ssthresh a now s
    have e3 := advanceBase_in_fast_recovery a now s
    have e5 := advanceBase_prev_ack_id a now s
    have hnew : isNewAck (advanceBase a now s).prev_ack_id a = true := by
      rw [e5, hp]
      simp [isNewAck, hlt]
    rw [renoOnAck_newAck_cwnd a now s hnew, e3, hfr, e1, e2]
    rw [if_neg (by simp), if_neg (not_lt.mpr hss)]
    have hpos : (0 : ℚ) < 1 / s.cwnd := div_pos one_pos (by linarith)
    rw [max_eq_left (by linarith)]

/-- C4 witness: five new acks from the initial state yield `cwnd = 6`; a new ack in
congestion avoidance (`cwnd = ssthresh = 64`) adds `1/64`. -/
theorem slow_start_linear_growth_witness :
    ((5 : Nat) ≤ 63 ∧
      (runEvents (initState []) (ackEvents 5)).cwnd = 1 + (5 : ℚ)) ∧
    ((renoOnAck 7 0 ⟨[], 0, 0, [], [], 64, 64, 0, some 6, false⟩).1.cwnd
      = (⟨[], 0, 0, [], [], 64, 64, 0, some 6, false⟩ : SenderState).cwnd
        + 1 / (⟨[], 0, 0, [], [], 64, 64, 0, some 6, false⟩ : SenderState).cwnd) :=
  ⟨⟨by decide, slow_start_linear_growth.1 5 (by decide)⟩,
   slow_start_linear_growth.2 ⟨[], 0, 0, [], [], 64, 64, 0, some 6, false⟩ 7 6 0
     rfl (by decide) rfl (by norm_num) (by norm_num)⟩

/-- C5 counterexample: the claim "retransmissions never overwrite the send time" is
false — a timeout retransmission overwrites the recorded send time of the base
segment (5 becomes 7). -/
theorem send_time_overwrite_cx :
    List.lookup (0 : Int)
      ((renoOnTimeout 7 ⟨[((0 : Int), [9])], 0, 1, [((0 : Int), (5 : ℚ))], [], 10, 64, 0,
        some 0, false⟩).1.packet_start_times) = some 7 ∧
    List.lookup (0 : Int) [((0 : Int), (5 : ℚ))] = some 5 ∧ (7 : ℚ) ≠ 5 := by
  refine ⟨by decide, by decide, by norm_num⟩

/-- C5 (amended): send times are first-transmission-only for the window-filling sends
and for every ack processed while in fast recovery (existing entries are preserved;
the opportunistic send inserts only when absent); but the timeout retransmission and
the triple-duplicate-ack fast retransmit overwrite the base segment's entry with the
retransmission time. -/
theorem send_time_update_policy :
    (∀ (t : ℚ) (s : SenderState) (k : Int) (v : ℚ),
        List.lookup k s.packet_start_times = some v →
        List.lookup k (fillWindow t s).1.packet_start_times = some v) ∧
    (∀ (a : Int) (t : ℚ) (s : SenderState) (k : Int) (v : ℚ),
        s.in_fast_recovery = true →
        List.lookup k s.packet_start_times = some v →
        List.lookup k (renoOnAck a t s).1.packet_start_times = some v) ∧
    (∀ (t : ℚ) (s : SenderState),
        List.lookup (getSeg s s.base).1 (renoOnTimeout t s).1.packet_start_times
          = some t) ∧
    (∀ (a : Int) (t : ℚ) (s : SenderState) (p : Int),
        s.prev_ack_id = some p → a = p → s.in_fast_recovery = false → s.dup_acks = 2 →
        ¬ (getSeg s s.base).1 < a →
        List.lookup (getSeg s s.base).1 (renoOnAck a t s).1.packet_start_times
          = some t) := by
  refine ⟨fillWindow_preserves_times, ?_, ?_, ?_⟩
  · intro a t s k v hfr h
    have e3 := advanceBase_in_fast_recovery a t s
    have e6 := advanceBase_packet_start_times a t s
    have h' : List.lookup k (advanceBase a t s).packet_start_times = some v := by
      rw [e6]; exact h
    simp only [renoOnAck]
    by_cases hnew : isNewAck (advanceBase a t s).prev_ack_id a = true
    · rw [if_pos hnew]
      exact h'
    · rw [if_neg hnew]
      by_cases hdup : isDupAck (advanceBase a t s).prev_ack_id a = true
      · rw [if_pos hdup]
        rw [if_pos (show (advanceBase a t s).in_fast_recovery = true from by
          rw [e3]; exact hfr)]
        by_cases hwin : (((advanceBase a t s).next_seq_num : Int)
            < ((advanceBase a t s).base : Int) + pyInt ((advanceBase a t s).cwnd + 1)
            ∧ (advanceBase a t s).next_seq_num < (advanceBase a t s).transfers.length)
        · rw [if_pos hwin]
          exact markSent_preserves _ _ _ _ _ h'
        · rw [if_neg hwin]
          exact h'
      · rw [if_neg hdup]
        exact h'
  · intro t s
    exact dictSet_lookup_self _ _ _
  · intro a t s p hp ha hfr hd hstale
    rw [renoOnAck_triple_dup a t s p hp ha hfr (by rw [hd]) hstale]
    exact dictSet_lookup_self _ _ _

/-- C5 witness: the four update-policy cases evaluated at concrete states — the
window-fill and fast-recovery paths preserve the recorded time 5, while the timeout
and fast-retransmit paths set the base entry to the retransmission time 9. -/
theorem send_time_update_policy_witness :
    List.lookup (0 : Int) (fillWindow 9 ⟨[((0 : Int), [1])], 0, 1,
      [((0 : Int), (5 : ℚ))], [], 1, 64, 0, none, false⟩).1.packet_start_times
      = some 5 ∧
    List.lookup (0 : Int) (renoOnAck 0 9 ⟨[((0 : Int), [1]), (1, [])], 0, 1,
      [((0 : Int), (5 : ℚ))], [], 2, 64, 0, some 0, true⟩).1.packet_start_times
      = some 5 ∧
    List.lookup (0 : Int) (renoOnTimeout 9 ⟨[((0 : Int), [1])], 0, 1,
      [((0 : Int), (5 : ℚ))], [], 10, 64, 0, some 0, false⟩).1.packet_start_times
      = some 9 ∧
    List.lookup (0 : Int) (renoOnAck 0 9 ⟨[((0 : Int), [1])], 0, 1,
      [((0 : Int), (5 : ℚ))], [], 10, 64, 2, some 0, false⟩).1.packet_start_times
      = some 9 :=
  ⟨send_time_update_policy.1 9 ⟨[((0 : Int), [1])], 0, 1,
      [((0 : Int), (5 : ℚ))], [], 1, 64, 0, none, false⟩ 0 5 rfl,
   send_time_update_policy.2.1 0 9 ⟨[((0 : Int), [1]), (1, [])], 0, 1,
      [((0 : Int), (5 : ℚ))], [], 2, 64, 0, some 0, true⟩ 0 5 rfl rfl,
   send_time_update_policy.2.2.1 9 ⟨[((0 : Int), [1])], 0, 1,
      [((0 : Int), (5 : ℚ))], [], 10, 64, 0, some 0, false⟩,
   send_time_update_policy.2.2.2 0 9 ⟨[((0 : Int), [1])], 0, 1,
      [((0 : Int), (5 : ℚ))], [], 10, 64, 2, some 0, false⟩ 0 rfl rfl rfl rfl
     (by decide)⟩

/-- C6 counterexample: the codec round trip fails for a non-UTF-8 payload — encoding
offset 0 with payload `[0xFF]` (length 1 ≤ MSS) and decoding yields text `[]`,
not the payload, because `parse_ack` decodes the tail as text with undecodable
bytes dropped. -/
theorem codec_roundtrip_cx :
    parse_ack (make_packet 0 [255]) = (0, []) ∧ ([] : List Nat) ≠ [255] := by
  constructor
  · simp [parse_ack, make_packet, toBytesBE, fromBytesBESigned, fromBytesBEUnsigned,
      utf8DecodeIgnore, utf8Step, isCont, SEQ_ID_SIZE]
  · simp

/-- C6 (amended): for every offset in `[-2^31, 2^31 - 1]` and payload of length up to
MSS, decoding the encoded segment returns the same offset, and the text component is
the UTF-8 decoding of the payload with undecodable bytes dropped; re-encoding the
text recovers the payload exactly when the payload is valid UTF-8. -/
theorem codec_roundtrip_amended (o : Int) (p : List Nat)
    (h1 : -(2 ^ 31) ≤ o) (h2 : o < 2 ^ 31) (hp : p.length ≤ MSS) :
    parse_ack (make_packet o p) = (o, utf8DecodeIgnore p) ∧
    (utf8Valid p = true → utf8Encode (utf8DecodeIgnore p) = p) := by
  refine ⟨?_, utf8Valid_encode_decodeIgnore p⟩
  have ho := parse_make_offset o p h1 h2
  have ht := parse_make_text o p
  rw [Prod.ext_iff]
  exact ⟨ho, ht⟩

/-- C6 witness: the amended round trip at offset -5 with the ASCII payload "Hi". -/
theorem codec_roundtrip_amended_witness :
    (-(2 ^ 31) : Int) ≤ -5 ∧ (-5 : Int) < 2 ^ 31 ∧
    ([72, 105] : List Nat).length ≤ MSS ∧
    (parse_ack (make_packet (-5) [72, 105]) = (-5, utf8DecodeIgnore [72, 105]) ∧
      (utf8Valid [72, 105] = true →
        utf8Encode (utf8DecodeIgnore [72, 105]) = [72, 105])) :=
  ⟨by decide, by decide, by decide,
   codec_roundtrip_amended (-5) [72, 105] (by decide) (by decide) (by decide)⟩

/-- C7 counterexample: undecodable bytes are dropped, not replaced — decoding the
ack `[0,0,0,0,0xFF]` yields text `[]`, whereas the spec's replacement behaviour
would yield `[U+FFFD]`. -/
theorem ack_decode_replace_cx :
    parse_ack [0, 0, 0, 0, 255] = (0, []) ∧
    utf8DecodeReplaceSpec [255] = [0xFFFD] ∧ ([] : List Nat) ≠ [0xFFFD] := by
  refine ⟨?_, ?_, by simp⟩
  · simp [parse_ack, fromBytesBESigned, fromBytesBEUnsigned,
      utf8DecodeIgnore, utf8Step, isCont, SEQ_ID_SIZE]
  · simp [utf8DecodeReplaceSpec, utf8Step, isCont]

/-- C7 (amended): `parse_ack` is total and tolerant — for every byte string
(truncated inputs included) it returns an offset in `[-2^31, 2^31 - 1]`, and the
text component re-encodes to a sublist of the input's tail: undecodable bytes are
dropped (ignored), never a cause of failure. -/
theorem ack_decode_total_amended (bs : List Nat) (hb : ∀ b ∈ bs, b < 256) :
    (-(2 ^ 31) ≤ (parse_ack bs).1 ∧ (parse_ack bs).1 < 2 ^ 31) ∧
    (utf8Encode (parse_ack bs).2).Sublist (bs.drop 4) := by
  constructor
  · apply fromBytesBESigned_bounds
    · intro b hbm
      exact hb b (List.take_subset _ _ hbm)
    · rw [List.length_take]
      simp only [SEQ_ID_SIZE]
      omega
  · exact utf8Encode_decodeIgnore_sublist _

/-- C7 witness: the amended totality property at a truncated two-byte input. -/
theorem ack_decode_total_amended_witness :
    (∀ b ∈ ([1, 2] : List Nat), b < 256) ∧
    ((-(2 ^ 31) ≤ (parse_ack [1, 2]).1 ∧ (parse_ack [1, 2]).1 < 2 ^ 31) ∧
      (utf8Encode (parse_ack [1, 2]).2).Sublist (([1, 2] : List Nat).drop 4)) :=
  ⟨by decide, ack_decode_total_amended [1, 2] (by decide)⟩

/-- C8: Planning correctness. For any payload of length `L` and `mss > 0`, the plan
has `ceil(L/mss) + 1` segments (so exactly 1 when `L = 0`), offsets are strictly
increasing, the non-terminal chunk lengths sum to `L`, and the final segment is the
empty payload at offset `L`. -/
theorem planning_correctness (data : List Nat) (mss : Nat) (hm : 0 < mss) :
    (plan data mss).length = (data.length + mss - 1) / mss + 1 ∧
    (plan data mss).Pairwise (fun x y => x.1 < y.1) ∧
    ((plan data mss).dropLast.map fun seg => seg.2.length).sum = data.length ∧
    (plan data mss).getLast? = some ((data.length : Int), []) := by
  have hchunks_len := load_payload_chunks_length mss data hm
  have hflat := load_payload_chunks_flatten mss data hm
  have hnil := load_payload_chunks_ne_nil mss data hm
  have hsum : sumLens (load_payload_chunks mss data) = data.length := by
    rw [sumLens, ← List.length_flatten, hflat]
  have hbt := buildTransfers_eq (load_payload_chunks mss data) 0
  unfold plan
  rw [hbt]
  refine ⟨?_, ?_, ?_, ?_⟩
  · simp [List.length_append, annotOffsets_length, hchunks_len]
  · rw [List.pairwise_append]
    refine ⟨annotOffsets_pairwise _ hnil 0, List.pairwise_singleton _ _, ?_⟩
    intro x hx y hy
    have hbd := (annotOffsets_mem_bounds _ hnil 0 x hx).2
    simp only [List.mem_singleton] at hy
    subst hy
    simpa using hbd
  · rw [List.dropLast_concat]
    have hmap : (annotOffsets 0 (load_payload_chunks mss data)).map
        (fun seg => seg.2.length) = (load_payload_chunks mss data).map List.length := by
      have hsnd := annotOffsets_snd (load_payload_chunks mss data) 0
      calc (annotOffsets 0 (load_payload_chunks mss data)).map (fun seg => seg.2.length)
          = ((annotOffsets 0 (load_payload_chunks mss data)).map Prod.snd).map
              List.length := by rw [List.map_map]; rfl
        _ = (load_payload_chunks mss data).map List.length := by rw [hsnd]
    rw [hmap]
    exact hsum
  · rw [List.getLast?_concat, hsum]
    norm_num

/-- C8 witness: the plan for a 3-byte payload with `mss = 2` — two data chunks plus
the terminal empty segment, with the stated count, ordering, sum, and last element. -/
theorem planning_correctness_witness :
    (0 : Nat) < 2 ∧
    ((plan [1, 2, 3] 2).length = (([1, 2, 3] : List Nat).length + 2 - 1) / 2 + 1 ∧
      (plan [1, 2, 3] 2).Pairwise (fun x y => x.1 < y.1) ∧
      ((plan [1, 2, 3] 2).dropLast.map fun seg => seg.2.length).sum
        = ([1, 2, 3] : List Nat).length ∧
      (plan [1, 2, 3] 2).getLast?
        = some ((([1, 2, 3] : List Nat).length : Int), [])) :=
  ⟨by decide, planning_correctness [1, 2, 3] 2 (by decide)⟩

/-- C9: Metrics computation. With delay samples `[0.1, 0.3, 0.2]`,
`total_bytes = 3000` and `duration = 1.5`, the metrics are
`throughput = 2000`, `avg_delay = 0.2`, `avg_jitter = 0.15`, and
`score = 2000/2000 + 15/0.15 + 35/0.2 = 1 + 100 + 175 = 276` (the `1e-6`
safe substitutes are not used since both values are positive). -/
theorem metrics_scenario :
    print_metrics 3000 (3 / 2) [1 / 10, 3 / 10, 2 / 10] = (2000, 1 / 5, 3 / 20, 276) := by
  have h1 : |(3 : ℚ) / 10 - 1 / 10| = 1 / 5 := by
    rw [abs_of_nonneg (by norm_num)]; norm_num
  have h2 : |(2 : ℚ) / 10 - 3 / 10| = 1 / 10 := by
    rw [abs_of_neg (by norm_num)]; norm_num
  simp only [print_metrics, jitterSum, h1, h2]
  norm_num

/-- C10: Stale-ack no-op. When `prev_ack_id` is set, a received non-fin ack with
offset strictly below it is classified neither as new nor as duplicate: every
congestion variable is unchanged and no datagram is transmitted by the event. -/
theorem stale_ack_noop (s : SenderState) (a p : Int) (now : ℚ)
    (hprev : s.prev_ack_id = some p) (hlt : a < p) (hb : s.base < s.transfers.length) :
    (renoOnAck a now s).1.cwnd = s.cwnd ∧
    (renoOnAck a now s).1.ssthresh = s.ssthresh ∧
    (renoOnAck a now s).1.dup_acks = s.dup_acks ∧
    (renoOnAck a now s).1.in_fast_recovery = s.in_fast_recovery ∧
    (renoOnAck a now s).1.prev_ack_id = s.prev_ack_id ∧
    (renoOnAck a now s).2 = [] := by
  have e1 := advanceBase_cwnd a now s
  have e2 := advanceBase_ssthresh a now s
  have e3 := advanceBase_in_fast_recovery a now s
  have e4 := advanceBase_dup_acks a now s
  have e5 := advanceBase_prev_ack_id a now s
  have hnew : isNewAck (advanceBase a now s).prev_ack_id a = false := by
    rw [e5, hprev]
    simp only [isNewAck, decide_eq_false_iff_not]
    omega
  have hdup : isDupAck (advanceBase a now s).prev_ack_id a = false := by
    rw [e5, hprev]
    simp only [isDupAck, decide_eq_false_iff_not]
    omega
  simp only [renoOnAck, hnew, hdup, Bool.false_eq_true, if_false]
  exact ⟨e1, e2, e4, e3, e5, trivial⟩

/-- C10 witness: a stale ack (offset 2 below the recorded 4) leaves the concrete
state's congestion variables unchanged and transmits nothing. -/
theorem stale_ack_noop_witness :
    ((⟨[((5 : Int), [1]), (6, [])], 0, 1, [], [], 3, 64, 1, some 4,
        false⟩ : SenderState).prev_ack_id = some 4 ∧ (2 : Int) < 4 ∧ (0 : Nat) < 2) ∧
    ((renoOnAck 2 0 ⟨[((5 : Int), [1]), (6, [])], 0, 1, [], [], 3, 64, 1, some 4,
        false⟩).1.cwnd = 3 ∧
      (renoOnAck 2 0 ⟨[((5 : Int), [1]), (6, [])], 0, 1, [], [], 3, 64, 1, some 4,
        false⟩).1.ssthresh = 64 ∧
      (renoOnAck 2 0 ⟨[((5 : Int), [1]), (6, [])], 0, 1, [], [], 3, 64, 1, some 4,
        false⟩).1.dup_acks = 1 ∧
      (renoOnAck 2 0 ⟨[((5 : Int), [1]), (6, [])], 0, 1, [], [], 3, 64, 1, some 4,
        false⟩).1.in_fast_recovery = false ∧
      (renoOnAck 2 0 ⟨[((5 : Int), [1]), (6, [])], 0, 1, [], [], 3, 64, 1, some 4,
        false⟩).1.prev_ack_id = some 4 ∧
      (renoOnAck 2 0 ⟨[((5 : Int), [1]), (6, [])], 0, 1, [], [], 3, 64, 1, some 4,
        false⟩).2 = []) :=
  ⟨⟨rfl, by decide, by decide⟩,
   stale_ack_noop ⟨[((5 : Int), [1]), (6, [])], 0, 1, [], [], 3, 64, 1, some 4, false⟩
     2 4 0 rfl (by decide) (by decide)⟩
